import Mathlib

/-!
Shallow embedding of the English→Bengali dictionary app (App component,
constants.ts, types.ts).  The interesting logic is the bounded, case-
insensitively deduplicated, most-recently-used search-history list, the
search orchestration, and the history load/clear/persist effects.
-/

namespace EngToBan

/-- Maximum history length, MAX_HISTORY_ITEMS in constants.ts. -/
def MAX_HISTORY_ITEMS : Nat := 10

/-- Storage key for the persisted history, LOCAL_STORAGE_HISTORY_KEY in constants.ts. -/
def LOCAL_STORAGE_HISTORY_KEY : String := "englishBengaliSearchHistory"

/-- Embedding of the JavaScript String.prototype.toLowerCase primitive
(simple case mapping on each character; Char.toLower covers the ASCII
range used by the claims). -/
def jsToLower (s : String) : String := ⟨s.data.map Char.toLower⟩

/-- Embedding of the JavaScript String.prototype.trim primitive: strip
leading and trailing whitespace characters. -/
def jsTrim (s : String) : String :=
  ⟨((s.data.dropWhile Char.isWhitespace).reverse.dropWhile Char.isWhitespace).reverse⟩

/-- Translation result shape, TranslationEntry in types.ts. -/
structure TranslationEntry where
  englishWord : String
  bengaliWord : String
  partOfSpeech : String
  pronunciation : Option String
  englishExample : Option String
  bengaliExample : Option String
  synonyms : Option (List String)
  antonyms : Option (List String)
deriving Repr, DecidableEq

/-- Inner updater passed to setSearchHistory inside updateSearchHistory
(App lines 35-47): case-insensitive removal of the term, prepend with
original casing, truncate to MAX_HISTORY_ITEMS.  The term is already
trimmed and nonempty at this point. -/
def applyRecord (termToAdd : String) (prevHistory : List String) : List String :=
  let lowercasedTermToAdd := jsToLower termToAdd
  let filteredHistory := prevHistory.filter fun item => jsToLower item != lowercasedTermToAdd
  (termToAdd :: filteredHistory).take MAX_HISTORY_ITEMS

/-- Operation updateSearchHistory (App lines 31-48) acting on the in-memory
history list: trim, no-op on empty, otherwise applyRecord.  This is the
"record" operation of the History Manager. -/
def record (newTerm : String) (prevHistory : List String) : List String :=
  let termToAdd := jsTrim newTerm
  if termToAdd = "" then prevHistory else applyRecord termToAdd prevHistory

/-- Minimal JSON escaping used when persisting the history
(JSON.stringify on an array of strings). -/
def jsonEscapeChar (c : Char) : String :=
  if c = '"' then "\\\"" else if c = '\\' then "\\\\" else String.singleton c

/-- Quoting of one string for the persisted JSON array. -/
def jsonQuote (s : String) : String :=
  "\"" ++ String.join (s.data.map jsonEscapeChar) ++ "\""

/-- Serialization of the history list, modelling
JSON.stringify(updatedHistory) at App line 42. -/
def jsonStringifyStringArray (xs : List String) : String :=
  "[" ++ String.intercalate "," (xs.map jsonQuote) ++ "]"

/-- Whole component state of the App: the five useState cells plus the
content of localStorage under LOCAL_STORAGE_HISTORY_KEY (none when the key
is absent). -/
structure AppState where
  searchTerm : String
  translations : Option (List TranslationEntry)
  isLoading : Bool
  error : Option String
  searchHistory : List String
  storage : Option String
deriving Repr, DecidableEq

/-- Operation updateSearchHistory (App lines 31-48) as a state transition:
it updates the in-memory list and persists the updated list under the
storage key. -/
def updateSearchHistory (newTerm : String) (s : AppState) : AppState :=
  let termToAdd := jsTrim newTerm
  if termToAdd = "" then s
  else
    let updatedHistory := applyRecord termToAdd s.searchHistory
    { s with searchHistory := updatedHistory,
             storage := some (jsonStringifyStringArray updatedHistory) }

/-- Outcome of one fetchTranslations call: a result list, or a thrown
failure whose message is some m when the thrown value is an Error instance
and none otherwise. -/
inductive ProviderOutcome where
  | ok : List TranslationEntry → ProviderOutcome
  | err : Option String → ProviderOutcome
deriving Repr, DecidableEq

/-- Prompt shown for an empty or whitespace-only submission (App line 53). -/
def promptMsg : String := "Please enter a word to search."

/-- Message shown for an empty provider result (App line 68). -/
def noTranslationMsg (t : String) : String :=
  "No translation found for \"" ++ t ++ "\". Try another word."

/-- Fallback message when the thrown failure is not an Error instance
(App line 75). -/
def unknownErrorMsg : String :=
  "An unknown error occurred. Please ensure your API key is set up correctly."

/-- Operation handleSearch (App lines 50-80) as a state transition.  The
fetch argument models the external fetchTranslations provider call; it is
consulted only on the non-empty branch. -/
def handleSearch (fetch : String → ProviderOutcome) (term : String) (s : AppState) : AppState :=
  let trimmedTerm := jsTrim term
  if trimmedTerm = "" then
    { s with error := some promptMsg, translations := none }
  else
    let s1 := updateSearchHistory trimmedTerm s
    let s2 := { s1 with searchTerm := trimmedTerm, isLoading := true,
                        error := none, translations := none }
    let s3 :=
      match fetch trimmedTerm with
      | ProviderOutcome.ok results =>
        if results.length = 0 then
          { s2 with error := some (noTranslationMsg trimmedTerm), translations := none }
        else
          { s2 with translations := some results }
      | ProviderOutcome.err m =>
        { s2 with error := some (m.getD unknownErrorMsg), translations := none }
    { s3 with isLoading := false }

/-- Operation handleClearHistory (App lines 82-89): empties the in-memory
list and removes the persisted record. -/
def handleClearHistory (s : AppState) : AppState :=
  { s with searchHistory := [], storage := none }

/-- Runtime JSON values, the possible outputs of JSON.parse. -/
inductive JsValue where
  | jnull : JsValue
  | jbool : Bool → JsValue
  | jnum : Int → JsValue
  | jstr : String → JsValue
  | jarr : List JsValue → JsValue
  | jobj : List (String × JsValue) → JsValue

/-- Result of localStorage.getItem on the history key: ok (some s) is a
stored string, ok none is an absent key (null), fail is a thrown read. -/
inductive StorageRead where
  | ok : Option String → StorageRead
  | fail : StorageRead

/-- Load effect for the history at startup (App lines 19-29).  The parse argument
models JSON.parse, none meaning the parse throws.  Returns the value the
searchHistory state holds after the effect: the useState initial value is
the empty array, the truthiness test skips null and the empty string, the
catch branch resets to the empty array, and a successful parse is
installed verbatim with no shape validation. -/
def loadResult (stored : StorageRead) (parse : String → Option JsValue) : JsValue :=
  match stored with
  | StorageRead.fail => JsValue.jarr []
  | StorageRead.ok none => JsValue.jarr []
  | StorageRead.ok (some s) =>
    if s = "" then JsValue.jarr []
    else
      match parse s with
      | some v => v
      | none => JsValue.jarr []

/-- History operations the user can trigger: recording a search term and
clearing the history. -/
inductive HistOp where
  | record : String → HistOp
  | clear : HistOp

/-- Application of one history operation to the in-memory list. -/
def applyOp (h : List String) : HistOp → List String
  | HistOp.record t => record t h
  | HistOp.clear => []

/-- History reached from the empty initial history by a chronological
sequence of operations. -/
def runOps (ops : List HistOp) : List String := ops.foldl applyOp []

/-- Specification-side description of the dedup policy: keep the first
occurrence of each term up to case, scanning most-recent-first. -/
def dedupCI : List String → List String
  | [] => []
  | t :: ts => t :: (dedupCI ts).filter fun u => jsToLower u != jsToLower t

/-- Trimmed nonempty recorded terms since the last clear, given the
operation list most-recent-first. -/
def recentTermsRev : List HistOp → List String
  | [] => []
  | HistOp.clear :: _ => []
  | HistOp.record t :: rest =>
    if jsTrim t = "" then recentTermsRev rest else jsTrim t :: recentTermsRev rest

/-! Helper lemmas shared by the claim theorems. -/

lemma jsToLower_eq_empty {s : String} (h : jsToLower s = "") : s = "" := by
  cases s with
  | mk data =>
    simp [jsToLower, String.ext_iff] at h ⊢
    exact h

lemma applyRecord_eq (t : String) (h : List String) :
    applyRecord t h = t :: (h.filter fun item => jsToLower item != jsToLower t).take 9 := rfl

lemma filter_mru (p : String → Bool) (h : List String) (n : Nat) :
    ((h.filter p).take n).filter p = (h.filter p).take n :=
  List.filter_eq_self.mpr fun _ ha => (List.mem_filter.mp (List.mem_of_mem_take ha)).2

lemma record_length_le (t : String) (h : List String) (hh : h.length ≤ MAX_HISTORY_ITEMS) :
    (record t h).length ≤ MAX_HISTORY_ITEMS := by
  rw [record]
  by_cases ht : jsTrim t = ""
  · simpa [ht] using hh
  · simp only [ht, if_neg, ite_false, applyRecord]
    simp [MAX_HISTORY_ITEMS]

lemma dedupCI_pairwise (R : List String) :
    (dedupCI R).Pairwise fun a b => jsToLower a ≠ jsToLower b := by
  induction R with
  | nil => exact List.Pairwise.nil
  | cons t ts ih =>
    rw [dedupCI]
    refine List.Pairwise.cons ?_ (ih.filter _)
    intro u hu
    have := (List.mem_filter.mp hu).2
    simp only [bne_iff_ne, ne_eq] at this
    exact fun hc => this hc.symm

lemma filter_take_comm (c : String) :
    ∀ (D : List String) (n : Nat),
      D.Pairwise (fun a b => jsToLower a ≠ jsToLower b) →
      ((D.take n).filter fun u => jsToLower u != c).take (n - 1)
        = (D.filter fun u => jsToLower u != c).take (n - 1) := by
  intro D
  induction D with
  | nil => intro n _; simp
  | cons d rest ih =>
    intro n hp
    cases n with
    | zero => simp
    | succ m =>
      rw [List.take_succ_cons, Nat.add_sub_cancel]
      rw [List.filter_cons, List.filter_cons]
      by_cases hd : (jsToLower d != c) = true
      · rw [if_pos hd, if_pos hd]
        cases m with
        | zero => simp
        | succ k =>
          rw [List.take_succ_cons, List.take_succ_cons]
          have := ih (k + 1) hp.of_cons
          rw [Nat.add_sub_cancel] at this
          rw [this]
      · rw [if_neg hd, if_neg hd]
        have hc : jsToLower d = c := by
          simpa using hd
        have hrest : rest.filter (fun u => jsToLower u != c) = rest :=
          List.filter_eq_self.mpr fun x hx => by
            have : jsToLower d ≠ jsToLower x := (List.pairwise_cons.mp hp).1 x hx
            rw [hc] at this
            simpa using fun h => this h.symm
        have hrest' : (rest.take m).filter (fun u => jsToLower u != c) = rest.take m :=
          List.filter_eq_self.mpr fun x hx =>
            List.filter_eq_self.mp hrest x (List.mem_of_mem_take hx)
        rw [hrest, hrest', List.take_take]
        simp

lemma applyRecord_dedup_spec (t : String) (R : List String) :
    applyRecord t ((dedupCI R).take MAX_HISTORY_ITEMS)
      = (dedupCI (t :: R)).take MAX_HISTORY_ITEMS := by
  rw [applyRecord_eq]
  have h9 : (9 : Nat) = MAX_HISTORY_ITEMS - 1 := rfl
  rw [h9, filter_take_comm (jsToLower t) (dedupCI R) MAX_HISTORY_ITEMS (dedupCI_pairwise R)]
  rw [dedupCI]
  rfl

lemma runOps_append_one (ops : List HistOp) (op : HistOp) :
    runOps (ops ++ [op]) = applyOp (runOps ops) op := by
  simp [runOps, List.foldl_append]

lemma runOps_eq (ops : List HistOp) :
    runOps ops = (dedupCI (recentTermsRev ops.reverse)).take MAX_HISTORY_ITEMS := by
  induction ops using List.reverseRecOn with
  | nil => rfl
  | append_singleton ops op ih =>
    rw [runOps_append_one, List.reverse_append]
    cases op with
    | clear => simp [applyOp, recentTermsRev, dedupCI]
    | record t =>
      by_cases ht : jsTrim t = ""
      · simp only [List.reverse_singleton, List.singleton_append, recentTermsRev, ht, if_pos,
          ite_true]
        rw [applyOp, record]
        simp only [ht, if_pos, ite_true]
        exact ih
      · simp only [List.reverse_singleton, List.singleton_append, recentTermsRev, ht, if_neg,
          ite_false]
        rw [applyOp, record]
        simp only [ht, if_neg, ite_false]
        rw [ih, applyRecord_dedup_spec]
        rfl

/-! Claim theorems. -/

/-- Claim C1: starting from the empty history, every sequence of operations
(record of any term, clear) leads to a state in which no two entries are
equal ignoring case, the length is at most MAX_HISTORY_ITEMS = 10, and the
order reflects recency of use: the history is exactly the first-occurrence
case-insensitive dedup of the trimmed nonempty terms recorded since the
last clear, most recently recorded first, truncated to 10. -/
theorem history_invariant (ops : List HistOp) :
    (runOps ops).Pairwise (fun a b => jsToLower a ≠ jsToLower b) ∧
    (runOps ops).length ≤ MAX_HISTORY_ITEMS ∧
    runOps ops = (dedupCI (recentTermsRev ops.reverse)).take MAX_HISTORY_ITEMS := by
  refine ⟨?_, ?_, runOps_eq ops⟩
  · rw [runOps_eq]
    exact (dedupCI_pairwise _).sublist (List.take_sublist _ _)
  · rw [runOps_eq]
    simp

/-- Witness for C1 at a concrete operation sequence. -/
theorem history_invariant_witness :
    (runOps [HistOp.record "hello", HistOp.record " World ", HistOp.clear,
      HistOp.record "Tea", HistOp.record "TEA ", HistOp.record "  "]).Pairwise
        (fun a b => jsToLower a ≠ jsToLower b) ∧
    (runOps [HistOp.record "hello", HistOp.record " World ", HistOp.clear,
      HistOp.record "Tea", HistOp.record "TEA ", HistOp.record "  "]).length
        ≤ MAX_HISTORY_ITEMS ∧
    runOps [HistOp.record "hello", HistOp.record " World ", HistOp.clear,
      HistOp.record "Tea", HistOp.record "TEA ", HistOp.record "  "]
      = (dedupCI (recentTermsRev [HistOp.record "hello", HistOp.record " World ",
          HistOp.clear, HistOp.record "Tea", HistOp.record "TEA ",
          HistOp.record "  "].reverse)).take MAX_HISTORY_ITEMS :=
  history_invariant [HistOp.record "hello", HistOp.record " World ", HistOp.clear,
    HistOp.record "Tea", HistOp.record "TEA ", HistOp.record "  "]

/-- Claim C2: from the empty history, recording "hello", then "World", then
"HELLO" yields exactly the history ["HELLO", "World"]: length 2, most
recent first, the case-insensitive duplicate of "hello" removed, and the
latest casing "HELLO" kept. -/
theorem record_scenario_hello_world :
    record "HELLO" (record "World" (record "hello" [])) = ["HELLO", "World"] := by decide

/-- Claim C3: recording T and then a term equal to T ignoring case yields a
history of the same length as the single record of T, with the latest
casing first; no duplicate entry is created. -/
theorem record_dedup (T T' : String) (h : List String)
    (hT : jsTrim T ≠ "") (heq : jsToLower (jsTrim T') = jsToLower (jsTrim T)) :
    (record T' (record T h)).length = (record T h).length ∧
    (record T' (record T h)).head? = some (jsTrim T') := by
  have hT' : jsTrim T' ≠ "" := by
    intro h0
    apply hT
    apply jsToLower_eq_empty
    rw [← heq, h0]
    rfl
  have hrec : record T h
      = jsTrim T :: (h.filter fun item => jsToLower item != jsToLower (jsTrim T)).take 9 := by
    rw [record]
    simp only [hT, if_neg, ite_false]
    exact applyRecord_eq _ _
  have hself : (jsToLower (jsTrim T) != jsToLower (jsTrim T)) = false := by
    simp
  have hrec2 : record T' (record T h)
      = jsTrim T' :: (h.filter fun item => jsToLower item != jsToLower (jsTrim T)).take 9 := by
    rw [record]
    simp only [hT', if_neg, ite_false]
    rw [applyRecord_eq, hrec]
    rw [heq]
    rw [List.filter_cons]
    rw [hself]
    simp only [Bool.false_eq_true, if_false]
    rw [filter_mru]
    rw [List.take_take]
    simp
  rw [hrec2, hrec]
  exact ⟨rfl, rfl⟩

/-- Witness for C3: "hello" then " HELLO " over the history ["milk"]. -/
theorem record_dedup_witness :
    jsTrim "hello" ≠ "" ∧
    jsToLower (jsTrim " HELLO ") = jsToLower (jsTrim "hello") ∧
    ((record " HELLO " (record "hello" ["milk"])).length
        = (record "hello" ["milk"]).length ∧
      (record " HELLO " (record "hello" ["milk"])).head? = some (jsTrim " HELLO ")) :=
  ⟨by decide, by decide, record_dedup "hello" " HELLO " ["milk"] (by decide) (by decide)⟩

/-- Claim C4: the history length never exceeds 10 for any sequence of
recorded terms, and recording a case-insensitively fresh term into a full
history of 10 entries evicts exactly the oldest (last) entry, keeping the
relative order of the others. -/
theorem history_bound_eviction :
    (∀ terms : List String,
      (terms.foldl (fun acc t => record t acc) []).length ≤ MAX_HISTORY_ITEMS) ∧
    (∀ (t : String) (h : List String), h.length = MAX_HISTORY_ITEMS → jsTrim t ≠ "" →
      (∀ x ∈ h, jsToLower x ≠ jsToLower (jsTrim t)) →
      record t h = jsTrim t :: h.dropLast) := by
  constructor
  · intro terms
    have : ∀ (acc : List String), acc.length ≤ MAX_HISTORY_ITEMS →
        (terms.foldl (fun acc t => record t acc) acc).length ≤ MAX_HISTORY_ITEMS := by
      induction terms with
      | nil => intro acc hacc; simpa using hacc
      | cons t ts ih =>
        intro acc hacc
        exact ih _ (record_length_le t acc hacc)
    exact this [] (by simp [MAX_HISTORY_ITEMS])
  · intro t h hlen ht hdist
    have hfilter : h.filter (fun item => jsToLower item != jsToLower (jsTrim t)) = h :=
      List.filter_eq_self.mpr fun x hx => by
        simpa using hdist x hx
    rw [record]
    simp only [ht, if_neg, ite_false]
    rw [applyRecord_eq, hfilter, List.dropLast_eq_take, hlen]
    rfl

/-- Witness for C4: eleven distinct records stay below the bound, and a
fresh record into a full ten-entry history drops the last entry. -/
theorem history_bound_eviction_witness :
    ((["a", "b", "c", "d", "e", "f", "g", "h", "i", "j", "k"] : List String).foldl
        (fun acc t => record t acc) []).length ≤ MAX_HISTORY_ITEMS ∧
    record "k" ["j", "i", "h", "g", "f", "e", "d", "c", "b", "a"]
      = jsTrim "k" :: (["j", "i", "h", "g", "f", "e", "d", "c", "b", "a"] : List String).dropLast :=
  ⟨history_bound_eviction.1 _,
    history_bound_eviction.2 "k" ["j", "i", "h", "g", "f", "e", "d", "c", "b", "a"]
      (by decide) (by decide) (by decide)⟩

/-- Claim C5: for every term with nonempty trim and every prior history,
the first element after the record is the trimmed term with its original
casing preserved. -/
theorem record_head (T : String) (h : List String) (hT : jsTrim T ≠ "") :
    (record T h).head? = some (jsTrim T) := by
  simp [record, applyRecord, hT, MAX_HISTORY_ITEMS]

/-- Witness for C5 at the term " Apple " over the history ["tea"]. -/
theorem record_head_witness :
    jsTrim " Apple " ≠ "" ∧ (record " Apple " ["tea"]).head? = some (jsTrim " Apple ") :=
  ⟨by decide, record_head " Apple " ["tea"] (by decide)⟩

/-- Claim C6: a term with empty trim leaves the history unchanged both in
memory and in persistent storage, and the submission is handled locally by
setting the prompt message: the outcome is the same for every provider, so
the provider is never consulted. -/
theorem empty_submission (term : String) (hterm : jsTrim term = "") :
    (∀ s : AppState, updateSearchHistory term s = s) ∧
    (∀ (fetch : String → ProviderOutcome) (s : AppState),
      handleSearch fetch term s
        = { s with error := some promptMsg, translations := none }) := by
  constructor
  · intro s
    simp [updateSearchHistory, hterm]
  · intro fetch s
    simp [handleSearch, hterm]

/-- Witness for C6 at the whitespace-only submission "   ". -/
theorem empty_submission_witness :
    jsTrim "   " = "" ∧
    updateSearchHistory "   "
      { searchTerm := "", translations := none, isLoading := false, error := none,
        searchHistory := ["tea"], storage := some "st" }
      = { searchTerm := "", translations := none, isLoading := false, error := none,
          searchHistory := ["tea"], storage := some "st" } ∧
    handleSearch (fun _ => ProviderOutcome.ok []) "   "
      { searchTerm := "", translations := none, isLoading := false, error := none,
        searchHistory := ["tea"], storage := some "st" }
      = { searchTerm := "", translations := none, isLoading := false,
          error := some promptMsg, searchHistory := ["tea"], storage := some "st" } :=
  ⟨by decide,
    (empty_submission "   " (by decide)).1 _,
    (empty_submission "   " (by decide)).2 (fun _ => ProviderOutcome.ok []) _⟩

/-- Claim C7: clearing the history empties the in-memory list and removes
the persisted record, so a subsequent load from the storage left behind
(a simulated restart) yields the empty history, whatever the parser does. -/
theorem clear_then_load (s : AppState) (parse : String → Option JsValue) :
    (handleClearHistory s).searchHistory = [] ∧
    loadResult (StorageRead.ok (handleClearHistory s).storage) parse = JsValue.jarr [] :=
  ⟨rfl, rfl⟩

/-- Witness for C7 at a concrete state and parser. -/
theorem clear_then_load_witness :
    (handleClearHistory
      { searchTerm := "", translations := none, isLoading := false, error := none,
        searchHistory := ["tea", "milk"], storage := some "st" }).searchHistory = [] ∧
    loadResult
      (StorageRead.ok (handleClearHistory
        { searchTerm := "", translations := none, isLoading := false, error := none,
          searchHistory := ["tea", "milk"], storage := some "st" }).storage)
      (fun _ => some (JsValue.jstr "x")) = JsValue.jarr [] :=
  clear_then_load _ (fun _ => some (JsValue.jstr "x"))

/-- Claim C8: the load effect falls back to the empty history on a thrown
read and on a parse failure; being a total function into history values,
it never propagates the failure to the caller. -/
theorem load_failure_fallback :
    (∀ parse : String → Option JsValue,
      loadResult StorageRead.fail parse = JsValue.jarr []) ∧
    (∀ (str : String) (parse : String → Option JsValue), parse str = none →
      loadResult (StorageRead.ok (some str)) parse = JsValue.jarr []) := by
  refine ⟨fun _ => rfl, fun str parse hp => ?_⟩
  by_cases hs : str = "" <;> simp [loadResult, hs, hp]

/-- Witness for C8 at a stored string whose parse fails. -/
theorem load_failure_fallback_witness :
    loadResult (StorageRead.ok (some "not json")) (fun _ => none) = JsValue.jarr [] :=
  load_failure_fallback.2 "not json" (fun _ => none) rfl

/-- Claim C9: for a submission with nonempty trim, the final state follows
the provider outcome: an empty result list sets the not-found message that
references the searched term; a thrown failure with a message sets that
message; a thrown failure with no message sets the generic fallback. -/
theorem provider_outcome_states (term : String) (hterm : jsTrim term ≠ "")
    (fetch : String → ProviderOutcome) (s : AppState) :
    (fetch (jsTrim term) = ProviderOutcome.ok [] →
      (handleSearch fetch term s).error = some (noTranslationMsg (jsTrim term)) ∧
      (handleSearch fetch term s).translations = none) ∧
    (∀ m : String, fetch (jsTrim term) = ProviderOutcome.err (some m) →
      (handleSearch fetch term s).error = some m ∧
      (handleSearch fetch term s).translations = none) ∧
    (fetch (jsTrim term) = ProviderOutcome.err none →
      (handleSearch fetch term s).error = some unknownErrorMsg ∧
      (handleSearch fetch term s).translations = none) := by
  refine ⟨fun hf => ?_, fun m hf => ?_, fun hf => ?_⟩ <;>
    simp [handleSearch, hterm, hf, Option.getD]

/-- Witness for C9: an empty provider result for "xyzzy123" ends in the
not-found message for that term. -/
theorem provider_outcome_states_witness :
    jsTrim "xyzzy123" ≠ "" ∧
    ((handleSearch (fun _ => ProviderOutcome.ok []) "xyzzy123"
        { searchTerm := "", translations := none, isLoading := false, error := none,
          searchHistory := [], storage := none }).error
        = some (noTranslationMsg (jsTrim "xyzzy123")) ∧
      (handleSearch (fun _ => ProviderOutcome.ok []) "xyzzy123"
        { searchTerm := "", translations := none, isLoading := false, error := none,
          searchHistory := [], storage := none }).translations = none) :=
  ⟨by decide,
    (provider_outcome_states "xyzzy123" (by decide) (fun _ => ProviderOutcome.ok [])
      { searchTerm := "", translations := none, isLoading := false, error := none,
        searchHistory := [], storage := none }).1 rfl⟩

/-- Claim C10: the load effect performs no shape validation: every stored
nonempty string that parses successfully installs the parsed value
verbatim as the history, including values that are not arrays of strings,
exceed length 10, or contain case-insensitive duplicates. -/
theorem load_no_validation (str : String) (v : JsValue) (parse : String → Option JsValue)
    (hs : str ≠ "") (hp : parse str = some v) :
    loadResult (StorageRead.ok (some str)) parse = v := by
  simp [loadResult, hs, hp]

/-- Witness for C10: a parsed twelve-element array with case-insensitive
duplicates and a number inside is installed verbatim. -/
theorem load_no_validation_witness :
    loadResult (StorageRead.ok (some "s"))
      (fun _ => some (JsValue.jarr [JsValue.jstr "A", JsValue.jstr "a", JsValue.jstr "b",
        JsValue.jstr "B", JsValue.jstr "c", JsValue.jstr "C", JsValue.jstr "d", JsValue.jstr "D",
        JsValue.jstr "e", JsValue.jstr "E", JsValue.jstr "f", JsValue.jnum 7]))
      = JsValue.jarr [JsValue.jstr "A", JsValue.jstr "a", JsValue.jstr "b",
        JsValue.jstr "B", JsValue.jstr "c", JsValue.jstr "C", JsValue.jstr "d", JsValue.jstr "D",
        JsValue.jstr "e", JsValue.jstr "E", JsValue.jstr "f", JsValue.jnum 7] :=
  load_no_validation "s" _ _ (by decide) rfl

end EngToBan
